import Mathlib

/-
Verification development for the nobloat/blog static site generator
(`main.go`).  The Go code is shallowly embedded over `List Char`:
Go strings become `Str := List Char`, and each Go function that the
claims touch is translated definition-by-definition.  Byte-level Go
operations (`len`, slicing) are modelled at the character level; for
the ASCII data handled by every claim the two coincide.
-/

namespace Blog

/-- Go strings, modelled as lists of characters. -/
abbrev Str := List Char

/-- `unicode.IsSpace` restricted to the Latin-1 range (the only space
characters the claims exercise are ASCII). -/
def goIsSpace (c : Char) : Bool :=
  c == ' ' || c == '\t' || c == '\n' || c == '\x0b' || c == '\x0c' ||
  c == '\x0d' || c == '\u0085' || c == ' '

/-- `strings.TrimLeft` over `unicode.IsSpace` (the leading half of
`strings.TrimSpace`). -/
def trimLeft (s : Str) : Str := s.dropWhile goIsSpace

/-- The trailing half of `strings.TrimSpace`. -/
def trimRight (s : Str) : Str := (s.reverse.dropWhile goIsSpace).reverse

/-- `strings.TrimSpace`. -/
def trimSpace (s : Str) : Str := trimRight (trimLeft s)

/-- `strings.HasPrefix s p`. -/
def startsWith (s p : Str) : Bool := p.isPrefixOf s

/-- `strings.HasSuffix s p`. -/
def endsWith (s p : Str) : Bool := p.isSuffixOf s

/-- `strings.TrimSuffix`. -/
def goTrimSuffix (s suf : Str) : Str :=
  if endsWith s suf then s.take (s.length - suf.length) else s

/-- `strings.Split s "\n"`: the result is never empty, and splitting the
empty string yields one empty field, exactly as in Go. -/
def splitNl : Str → List Str
  | [] => [[]]
  | c :: cs =>
    if c = '\n' then [] :: splitNl cs
    else (c :: (splitNl cs).headD []) :: (splitNl cs).tail

/-- `html.EscapeString`, character by character (`strings.Replacer` with
the five single-character patterns `&`, `'`, `<`, `>`, `"`). -/
def escapeChar (c : Char) : Str :=
  if c = '&' then ("&amp;").data
  else if c = '\'' then ("&#39;").data
  else if c = '<' then ("&lt;").data
  else if c = '>' then ("&gt;").data
  else if c = '"' then ("&#34;").data
  else [c]

/-- `html.EscapeString`. -/
def escapeString (s : Str) : Str := (s.map escapeChar).flatten

/-- One pass of `Regexp.ReplaceAllString`: at each position try the
matcher (which returns the expanded replacement together with the text
after the match); on failure move one character right.  All matchers
below consume at least one character, so fuel `s.length` is exact. -/
def replFuel (m : Str → Option (Str × Str)) : Nat → Str → Str
  | 0, s => s
  | _ + 1, [] => []
  | fuel + 1, c :: cs =>
    match m (c :: cs) with
    | some (rep, rest) => rep ++ replFuel m fuel rest
    | none => c :: replFuel m fuel cs

/-- `Regexp.ReplaceAllString` for the inline-markup patterns. -/
def replaceAllWith (m : Str → Option (Str × Str)) (s : Str) : Str :=
  replFuel m s.length s

/-- Lazy search for `(.+?)` followed by `closer`: the shortest non-empty
newline-free prefix of `s` that is followed by `closer`.  `acc` holds the
content read so far, reversed. -/
def lazyClose (closer : Str) (acc : Str) : Str → Option (Str × Str)
  | [] => none
  | c :: cs =>
    if acc ≠ [] ∧ startsWith (c :: cs) closer then
      some (acc.reverse, (c :: cs).drop closer.length)
    else if c = '\n' then none
    else lazyClose closer (c :: acc) cs

/-- Matcher for ``codeRe = `([^`\n]+)` `` with template `<code>$1</code>`:
the character class is bounded by the excluded delimiter, so the greedy
run is deterministic. -/
def tryCode : Str → Option (Str × Str)
  | '`' :: rest =>
    let content := rest.takeWhile (fun c => c != '`' && c != '\n')
    let after := rest.drop content.length
    match after with
    | '`' :: rem => if content = [] then none else
        some (("<code>").data ++ content ++ ("</code>").data, rem)
    | _ => none
  | _ => none

/-- Matcher for `boldRe = \*\*(.+?)\*\*` with template
`<strong>$1</strong>`. -/
def tryBold : Str → Option (Str × Str)
  | '*' :: '*' :: rest =>
    (lazyClose ('*' :: '*' :: []) [] rest).map fun pr =>
      (("<strong>").data ++ pr.1 ++ ("</strong>").data, pr.2)
  | _ => none

/-- Matcher for `italicRe = \*(.+?)\*` with template `<em>$1</em>`. -/
def tryItalic : Str → Option (Str × Str)
  | '*' :: rest =>
    (lazyClose ('*' :: []) [] rest).map fun pr =>
      (("<em>").data ++ pr.1 ++ ("</em>").data, pr.2)
  | _ => none

/-- Matcher for `strikeRe = ~~(.+?)~~` with template `<del>$1</del>`. -/
def tryStrike : Str → Option (Str × Str)
  | '~' :: '~' :: rest =>
    (lazyClose ('~' :: '~' :: []) [] rest).map fun pr =>
      (("<del>").data ++ pr.1 ++ ("</del>").data, pr.2)
  | _ => none

/-- Matcher for `imageRe = !\[([^\]]*)\]\(([^)]+)\)` with the figure
template. -/
def tryImage : Str → Option (Str × Str)
  | '!' :: '[' :: rest =>
    let alt := rest.takeWhile (fun c => c != ']')
    match rest.drop alt.length with
    | ']' :: '(' :: r2 =>
      let url := r2.takeWhile (fun c => c != ')')
      match r2.drop url.length with
      | ')' :: rem => if url = [] then none else
          some (("<figure><img src=\"").data ++ url ++ ("\" alt=\"").data ++ alt ++
                ("\"><figcaption>").data ++ alt ++ ("</figcaption></figure>").data, rem)
      | _ => none
    | _ => none
  | _ => none

/-- Matcher for `linkRe = \[([^\]]*)\]\(([^)]+)\)` with template
`<a href="$2">$1</a>`. -/
def tryLink : Str → Option (Str × Str)
  | '[' :: rest =>
    let txt := rest.takeWhile (fun c => c != ']')
    match rest.drop txt.length with
    | ']' :: '(' :: r2 =>
      let url := r2.takeWhile (fun c => c != ')')
      match r2.drop url.length with
      | ')' :: rem => if url = [] then none else
          some (("<a href=\"").data ++ url ++ ("\">").data ++ txt ++ ("</a>").data, rem)
      | _ => none
    | _ => none
  | _ => none

/-- `formatInline` from `main.go`: escape, then the six regex
substitutions in source order (image, link, code, bold, strikethrough,
italic), each pass scanning the previous pass's output. -/
def formatInline (text : Str) : Str :=
  let t := escapeString text
  let t := replaceAllWith tryImage t
  let t := replaceAllWith tryLink t
  let t := replaceAllWith tryCode t
  let t := replaceAllWith tryBold t
  let t := replaceAllWith tryStrike t
  replaceAllWith tryItalic t

/-- `unicode.IsLetter`, restricted to ASCII (non-ASCII letter tables are
not modelled; no claim exercises them). -/
def goIsLetter (c : Char) : Bool :=
  ('a' ≤ c && c ≤ 'z') || ('A' ≤ c && c ≤ 'Z')

/-- `unicode.IsDigit`, restricted to ASCII. -/
def goIsDigit (c : Char) : Bool := '0' ≤ c && c ≤ '9'

/-- Per-rune `strings.ToLower`, restricted to ASCII. -/
def goToLowerChar (c : Char) : Char :=
  if 'A' ≤ c && c ≤ 'Z' then Char.ofNat (c.toNat + 32) else c

/-- The per-rune switch inside `sanitizeAnchor`. -/
def keepRune (c : Char) : Char :=
  if goIsLetter c || goIsDigit c then c
  else if c = '-' || c = '_' || c = '.' || c = '~' then c
  else '-'

/-- `sanitizeAnchor` from `main.go`: build the kept/dashed string rune by
rune, then `strings.ToLower` the whole result. -/
def sanitizeAnchor (input : Str) : Str :=
  (input.map keepRune).map goToLowerChar

/-- A calendar date as produced by `time.Parse("2006-01-02", ...)`. -/
structure Date where
  year : Nat
  month : Nat
  day : Nat
deriving DecidableEq, Repr, Inhabited

/-- Gregorian leap-year rule (`time.isLeap`). -/
def isLeapYear (y : Nat) : Bool :=
  y % 4 == 0 && (y % 100 != 0 || y % 400 == 0)

/-- `time.daysIn`: days in month `m` of year `y`. -/
def daysIn (m y : Nat) : Nat :=
  if m = 2 then (if isLeapYear y then 29 else 28)
  else if m = 4 ∨ m = 6 ∨ m = 9 ∨ m = 11 then 30
  else 31

/-- Numeric value of an ASCII digit. -/
def digitVal (c : Char) : Nat := c.toNat - ('0').toNat

/-- `time.Parse("2006-01-02", s)`: exactly ten characters
`DDDD-DD-DD` (all `D` digits), month in `1..12`, day in `1..daysIn`;
anything else is a parse error (`none`). -/
def parseGoDate (s : Str) : Option Date :=
  match s with
  | [y1, y2, y3, y4, s1, m1, m2, s2, d1, d2] =>
    if goIsDigit y1 && goIsDigit y2 && goIsDigit y3 && goIsDigit y4 &&
       s1 == '-' && goIsDigit m1 && goIsDigit m2 &&
       s2 == '-' && goIsDigit d1 && goIsDigit d2 then
      let y := ((digitVal y1 * 10 + digitVal y2) * 10 + digitVal y3) * 10 + digitVal y4
      let m := digitVal m1 * 10 + digitVal m2
      let d := digitVal d1 * 10 + digitVal d2
      if 1 ≤ m ∧ m ≤ 12 then
        if 1 ≤ d ∧ d ≤ daysIn m y then some ⟨y, m, d⟩ else none
      else none
    else none
  | _ => none

/-- `time.Time.After` on midnight-UTC dates: strict lexicographic
comparison of (year, month, day). -/
def dateAfter (a b : Date) : Bool :=
  a.year > b.year ||
  (a.year == b.year && (a.month > b.month ||
    (a.month == b.month && a.day > b.day)))

/-- The `Post` record of `main.go`. -/
structure Post where
  title : Str
  slug : Str
  date : Date
  content : Str
  excerpt : Str
deriving DecidableEq, Repr, Inhabited

/-- A directory entry paired with the text `os.ReadFile` returns for it. -/
structure DirEntry where
  name : Str
  content : Str
deriving DecidableEq, Repr, Inhabited

/-- The block-level pieces `parseMarkdown` writes to its output builder.
Flattened through `chunkHtml` they reproduce the builder's writes
byte-for-byte; keeping them separate makes the open/close discipline of
lists and code fences visible. -/
inductive Chunk where
  | ulOpen : Chunk
  | ulClose : Chunk
  | codeOpen (lang : Str) : Chunk
  | codeClose : Chunk
  | text (s : Str) : Chunk
deriving DecidableEq, Repr

/-- The exact text `parseMarkdown` writes for each chunk. -/
def chunkHtml : Chunk → Str
  | .ulOpen => ("<ul>\n").data
  | .ulClose => ("</ul>\n").data
  | .codeOpen lang =>
    ("<div class=\"code-block-wrapper\">\n<button class=\"copy-button\" onclick=\"copyCode(this)\" aria-label=\"Copy code\">Copy</button>\n").data ++
    (if lang = [] then ("<pre><code>").data
     else ("<pre><code class=\"language-").data ++ lang ++ ("\">").data)
  | .codeClose => ("</code></pre>\n</div>\n").data
  | .text s => s

def chunksText (cs : List Chunk) : Str := (cs.map chunkHtml).flatten

/-- The mutable state of the `parseMarkdown` line loop. -/
structure PState where
  inList : Bool
  inCode : Bool
  firstPar : Bool
deriving DecidableEq, Repr

/-- `</ul>` emitted when a non-list line arrives while a list is open. -/
def closeUl (st : PState) : List Chunk :=
  if st.inList then [Chunk.ulClose] else []

def h1Html (t : Str) : Str :=
  ("<h1>").data ++ formatInline t ++ ("</h1>\n").data

def h2Html (t : Str) : Str :=
  ("<h2 id=\"").data ++ sanitizeAnchor t ++ ("\"><a href=\"#").data ++
  sanitizeAnchor t ++ ("\">").data ++ formatInline t ++ ("</a></h2>\n").data

def h3Html (t : Str) : Str :=
  ("<h3>").data ++ formatInline t ++ ("</h3>\n").data

def bqHtml (t : Str) : Str :=
  ("<blockquote><p>").data ++ formatInline t ++ ("</p></blockquote>\n").data

def liHtml (t : Str) : Str :=
  ("<li>").data ++ formatInline t ++ ("</li>\n").data

def pHtml (t : Str) : Str :=
  ("<p>").data ++ t ++ ("</p>\n").data

/-- One iteration of the `parseMarkdown` line loop: the chunks written,
the excerpt text written (non-empty only for the first plain paragraph)
and the successor state.  Mirrors the source's rule order: code-fence
toggle, inside-code literal, blank-closes-list, then the switch
(quote, `# `, `## `, `### `, `- `, blank, default paragraph). -/
def lineStep (raw : Str) (st : PState) : List Chunk × Str × PState :=
  let line := trimSpace raw
  if startsWith line (('`') :: ('`') :: ('`') :: []) then
    if st.inCode then ([Chunk.codeClose], [], { st with inCode := false })
    else ([Chunk.codeOpen (trimSpace (line.drop 3))], [], { st with inCode := true })
  else if st.inCode then
    ([Chunk.text (escapeString raw ++ [('\n')])], [], st)
  else if st.inList ∧ line = [] then
    ([Chunk.ulClose], [], { st with inList := false })
  else if startsWith line (('>') :: (' ') :: []) then
    (closeUl st ++ [Chunk.text (bqHtml (line.drop 2))], [], { st with inList := false })
  else if startsWith line (('#') :: (' ') :: []) then
    (closeUl st ++ [Chunk.text (h1Html (line.drop 2))], [], { st with inList := false })
  else if startsWith line (('#') :: ('#') :: (' ') :: []) then
    (closeUl st ++ [Chunk.text (h2Html (line.drop 3))], [], { st with inList := false })
  else if startsWith line (('#') :: ('#') :: ('#') :: (' ') :: []) then
    (closeUl st ++ [Chunk.text (h3Html (line.drop 4))], [], { st with inList := false })
  else if startsWith line (('-') :: (' ') :: []) then
    ((if st.inList then [] else [Chunk.ulOpen]) ++ [Chunk.text (liHtml (line.drop 2))],
     [], { st with inList := true })
  else if line = [] then
    (closeUl st, [], { st with inList := false })
  else
    (closeUl st ++ [Chunk.text (pHtml (formatInline line))],
     if st.firstPar then [] else formatInline line,
     { inList := false, inCode := st.inCode, firstPar := true })

/-- End-of-input cleanup: close a dangling list and a dangling code
block, in that order (source lines 274-279). -/
def eofChunks (st : PState) : List Chunk :=
  (if st.inList then [Chunk.ulClose] else []) ++
  (if st.inCode then [Chunk.codeClose] else [])

/-- The whole line loop of `parseMarkdown`: chunks written and the
excerpt.  The excerpt builder is written at most once (the one-shot
`firstParagraphCaptured` flag), so concatenating per-line contributions
reproduces it. -/
def processLines : List Str → PState → List Chunk × Str
  | [], st => (eofChunks st, [])
  | raw :: ls, st =>
    ((lineStep raw st).1 ++ (processLines ls (lineStep raw st).2.2).1,
     (lineStep raw st).2.1 ++ (processLines ls (lineStep raw st).2.2).2)

/-- Title extraction (source lines 191-193): only the raw, untrimmed
first line is inspected. -/
def mdTitle : List Str → Str
  | [] => []
  | l0 :: _ => if startsWith l0 (('#') :: (' ') :: []) then l0.drop 2 else []

/-- The chunk stream `parseMarkdown` emits for an input. -/
def markdownChunks (input : Str) : List Chunk :=
  (processLines (splitNl input) ⟨false, false, false⟩).1

/-- `parseMarkdown` from `main.go`: returns (content, title, excerpt). -/
def parseMarkdown (input : Str) : Str × Str × Str :=
  (chunksText (processLines (splitNl input) ⟨false, false, false⟩).1,
   mdTitle (splitNl input),
   (processLines (splitNl input) ⟨false, false, false⟩).2)

/-- `math/bits.Len` on a non-negative int. -/
def goBitsLen (n : Nat) : Nat := if n = 0 then 0 else Nat.log2 n + 1

/-
`sort.Slice` is Go's pattern-defeating quicksort (`pdqsort_func` and its
helpers from `src/sort/zsortfunc.go`, Go 1.19+), translated loop for
loop.  Index-taking loops that Go writes as `for` are expressed with an
explicit fuel argument larger than any possible iteration count; a
run that Go completes never exhausts the fuel.
-/
section GoSort

variable {α : Type} (less : α → α → Bool) [Inhabited α]

/-- Read a slice element (always in range in a Go run). -/
def lGet (l : List α) (i : Nat) : α := l.getD i default

/-- `data.Swap i j`.  Out-of-range indices would panic in Go and never
occur in a run; the guard keeps the model total without inventing
elements. -/
def lSwap (l : List α) (i j : Nat) : List α :=
  if i < l.length ∧ j < l.length then (l.set i (lGet l j)).set j (lGet l i) else l

/-- `data.Less i j` on the current slice contents. -/
def lLess (l : List α) (i j : Nat) : Bool := less (lGet l i) (lGet l j)

/-- Inner while of `insertionSort_func`:
`for j := i; j > a && data.Less(j, j-1); j-- { data.Swap(j, j-1) }`. -/
def insInner (l : List α) (a : Nat) : Nat → List α
  | 0 => l
  | j + 1 =>
    if j + 1 > a && lLess less l (j + 1) j then
      insInner (lSwap l (j + 1) j) a j
    else l

/-- `insertionSort_func(data, a, b)`. -/
def insertionSortGo (l : List α) (a b : Nat) : List α :=
  (List.range' (a + 1) (b - (a + 1))).foldl (fun acc i => insInner less acc a i) l

/-- `siftDown_func(data, lo, hi, first)`; the second `Nat` argument is
the current `root`. -/
def siftDownGo (hi first : Nat) : Nat → Nat → List α → List α
  | 0, _, l => l
  | fuel + 1, root, l =>
    let child := 2 * root + 1
    if child ≥ hi then l
    else
      let child :=
        if child + 1 < hi && lLess less l (first + child) (first + child + 1) then child + 1
        else child
      if !(lLess less l (first + root) (first + child)) then l
      else siftDownGo hi first fuel child (lSwap l (first + root) (first + child))

/-- `heapSort_func(data, a, b)`. -/
def heapSortGo (l : List α) (a b : Nat) : List α :=
  let first := a
  let hi := b - a
  let l := (List.range ((hi - 1) / 2 + 1)).reverse.foldl
    (fun acc i => siftDownGo less hi first (hi + 1) i acc) l
  (List.range hi).reverse.foldl
    (fun acc i => siftDownGo less i first (hi + 1) 0 (lSwap acc first (first + i))) l

inductive Hint where
  | increasing : Hint
  | decreasing : Hint
  | unknown : Hint
deriving DecidableEq, Repr

/-- `order2_func(data, a, b, &swaps)`. -/
def order2 (l : List α) (a b swaps : Nat) : Nat × Nat × Nat :=
  if lLess less l b a then (b, a, swaps + 1) else (a, b, swaps)

/-- `median_func(data, a, b, c, &swaps)`: returns the median index and
the updated swap counter. -/
def medianGo (l : List α) (a b c swaps : Nat) : Nat × Nat :=
  let r1 := order2 less l a b swaps
  let r2 := order2 less l r1.2.1 c r1.2.2
  let r3 := order2 less l r1.1 r2.1 r2.2.2
  (r3.2.1, r3.2.2)

/-- `medianAdjacent_func(data, a, &swaps)`. -/
def medianAdjacentGo (l : List α) (x swaps : Nat) : Nat × Nat :=
  medianGo less l (x - 1) x (x + 1) swaps

/-- `choosePivot_func(data, a, b)`. -/
def choosePivotGo (l : List α) (a b : Nat) : Nat × Hint :=
  let len := b - a
  let i := a + len / 4 * 1
  let j := a + len / 4 * 2
  let k := a + len / 4 * 3
  let r :=
    if len ≥ 8 then
      if len ≥ 50 then
        let ri := medianAdjacentGo less l i 0
        let rj := medianAdjacentGo less l j ri.2
        let rk := medianAdjacentGo less l k rj.2
        medianGo less l ri.1 rj.1 rk.1 rk.2
      else medianGo less l i j k 0
    else (j, 0)
  if r.2 = 0 then (r.1, Hint.increasing)
  else if r.2 = 12 then (r.1, Hint.decreasing)
  else (r.1, Hint.unknown)

/-- The `for i < b && !data.Less(i, i-1) { i++ }` scan of
`partialInsertionSort_func`. -/
def piAdvance (l : List α) (b : Nat) : Nat → Nat → Nat
  | 0, i => i
  | fuel + 1, i =>
    if i < b && !(lLess less l i (i - 1)) then piAdvance l b fuel (i + 1) else i

/-- The shift-left inner loop of `partialInsertionSort_func`
(`for j := i-1; j >= 1; j--`). -/
def piShiftLeft (l : List α) : Nat → List α
  | 0 => l
  | j + 1 =>
    if !(lLess less l (j + 1) j) then l
    else piShiftLeft (lSwap l (j + 1) j) j

/-- The shift-right inner loop of `partialInsertionSort_func`
(`for j := i+1; j < b; j++`). -/
def piShiftRight (l : List α) (b : Nat) : Nat → Nat → List α
  | 0, _ => l
  | fuel + 1, j =>
    if j < b then
      if !(lLess less l j (j - 1)) then l
      else piShiftRight (lSwap l j (j - 1)) b fuel (j + 1)
    else l

/-- The bounded outer loop of `partialInsertionSort_func`
(`maxSteps = 5`, `shortestShifting = 50`). -/
def piLoop (a b : Nat) : Nat → Nat → List α → Bool × List α
  | 0, _, l => (false, l)
  | steps + 1, i, l =>
    let i := piAdvance less l b (b + 1) i
    if i = b then (true, l)
    else if b - a < 50 then (false, l)
    else
      let l := lSwap l i (i - 1)
      let l := if i - a ≥ 2 then piShiftLeft less l (i - 1) else l
      let l := if b - i ≥ 2 then piShiftRight less l b (b + 1) (i + 1) else l
      piLoop a b steps i l

/-- `partialInsertionSort_func(data, a, b)`: the sorted flag and the
(possibly mutated) slice. -/
def partialInsertionSortGo (l : List α) (a b : Nat) : Bool × List α :=
  piLoop less a b 5 (a + 1) l

/-- One step of sort's xorshift generator, on `uint64`. -/
def xorshiftNext (r : Nat) : Nat :=
  let m := 2 ^ 64
  let r := Nat.xor r ((r * 2 ^ 13) % m)
  let r := Nat.xor r (r / 2 ^ 7)
  Nat.xor r ((r * 2 ^ 17) % m)

/-- `breakPatterns_func(data, a, b)`. -/
def breakPatternsGo (l : List α) (a b : Nat) : List α :=
  let len := b - a
  if len ≥ 8 then
    let modulus := 2 ^ goBitsLen len
    let idx := a + len / 4 * 2 - 1
    (([0, 1, 2] : List Nat).foldl
      (fun st i =>
        let r := xorshiftNext st.1
        let other := Nat.land r (modulus - 1)
        let other := if other ≥ len then other - len else other
        (r, lSwap st.2 (idx - 1 + i) (a + other)))
      (len, l)).2
  else l

/-- `for i <= j && data.Less(i, a) { i++ }` inside `partition_func`. -/
def partScanI (l : List α) (a j : Nat) : Nat → Nat → Nat
  | 0, i => i
  | fuel + 1, i =>
    if i ≤ j && lLess less l i a then partScanI l a j fuel (i + 1) else i

/-- `for i <= j && !data.Less(j, a) { j-- }` inside `partition_func`. -/
def partScanJ (l : List α) (a i : Nat) : Nat → Nat → Nat
  | 0, j => j
  | fuel + 1, j =>
    if i ≤ j && !(lLess less l j a) then partScanJ l a i fuel (j - 1) else j

/-- The swap loop of `partition_func`; returns the break-time `j` and
the slice. -/
def partLoop (a : Nat) : Nat → Nat → Nat → List α → Nat × List α
  | 0, _, j, l => (j, l)
  | fuel + 1, i, j, l =>
    let i := partScanI less l a j (j + 2) i
    let j := partScanJ less l a i (j + 2) j
    if i > j then (j, l)
    else partLoop a fuel (i + 1) (j - 1) (lSwap l i j)

/-- `partition_func(data, a, b, pivot)`: returns
(newpivot, alreadyPartitioned, slice). -/
def partitionGo (l : List α) (a b pivot : Nat) : Nat × Bool × List α :=
  let l := lSwap l a pivot
  let i1 := partScanI less l a (b - 1) (b + 2) (a + 1)
  let j1 := partScanJ less l a i1 (b + 2) (b - 1)
  if i1 > j1 then (j1, true, lSwap l j1 a)
  else
    let r := partLoop less a (b + 2) (i1 + 1) (j1 - 1) (lSwap l i1 j1)
    (r.1, false, lSwap r.2 r.1 a)

/-- `for i <= j && !data.Less(a, i) { i++ }` inside
`partitionEqual_func`. -/
def peScanI (l : List α) (a j : Nat) : Nat → Nat → Nat
  | 0, i => i
  | fuel + 1, i =>
    if i ≤ j && !(lLess less l a i) then peScanI l a j fuel (i + 1) else i

/-- `for i <= j && data.Less(a, j) { j-- }` inside
`partitionEqual_func`. -/
def peScanJ (l : List α) (a i : Nat) : Nat → Nat → Nat
  | 0, j => j
  | fuel + 1, j =>
    if i ≤ j && lLess less l a j then peScanJ l a i fuel (j - 1) else j

/-- The swap loop of `partitionEqual_func`; returns the break-time `i`
and the slice. -/
def peLoop (a : Nat) : Nat → Nat → Nat → List α → Nat × List α
  | 0, i, _, l => (i, l)
  | fuel + 1, i, j, l =>
    let i := peScanI less l a j (j + 2) i
    let j := peScanJ less l a i (j + 2) j
    if i > j then (i, l)
    else peLoop a fuel (i + 1) (j - 1) (lSwap l i j)

/-- `partitionEqual_func(data, a, b, pivot)`. -/
def partitionEqualGo (l : List α) (a b pivot : Nat) : Nat × List α :=
  peLoop less a (b + 2) (a + 1) (b - 1) (lSwap l a pivot)

/-- `reverseRange_func(data, a, b)`. -/
def revLoop : Nat → Nat → Nat → List α → List α
  | 0, _, _, l => l
  | fuel + 1, i, j, l => if i < j then revLoop fuel (i + 1) (j - 1) (lSwap l i j) else l

def reverseRangeGo (l : List α) (a b : Nat) : List α := revLoop (b + 2) a (b - 1) l

/-
`pdqsort_func(data, a, b, limit)` is translated as a family of stages,
one per region of the Go loop body; `next` stands for the recursive
call at the next-smaller fuel.  The staging changes nothing about the
data flow — every stage's arguments are exactly the Go locals live at
that point of the loop body.
-/

/-- Tail of the loop body after `partition_func`: the recursive call on
the shorter side (with fresh `wasBalanced`/`wasPartitioned`), then the
`continue` on the longer side with the updated flags
(`mid`/`ap` are `partition_func`'s results, `wasBalanced' =
min(leftLen, rightLen) >= length/8`, `wasPartitioned' = ap`). -/
def pdqRecurse (next : List α → Nat → Nat → Nat → Bool → Bool → List α)
    (l : List α) (a b limit mid : Nat) (ap : Bool) : List α :=
  if mid - a < b - mid then
    next (next l a mid limit true true) (mid + 1) b limit
      (decide (min (mid - a) (b - mid) ≥ (b - a) / 8)) ap
  else
    next (next l (mid + 1) b limit true true) a mid limit
      (decide (min (mid - a) (b - mid) ≥ (b - a) / 8)) ap

/-- The `if a > 0 && !data.Less(a-1, pivot)` region: equal-element fast
path (`a = mid; continue`) or the ordinary partition. -/
def pdqPartitionStage (next : List α → Nat → Nat → Nat → Bool → Bool → List α)
    (l : List α) (a b limit : Nat) (wb wp : Bool) (pivot : Nat) : List α :=
  if a > 0 && !(lLess less l (a - 1) pivot) then
    next (partitionEqualGo less l a b pivot).2 (partitionEqualGo less l a b pivot).1
      b limit wb wp
  else
    pdqRecurse next (partitionGo less l a b pivot).2.2 a b limit
      (partitionGo less l a b pivot).1 (partitionGo less l a b pivot).2.1

/-- The `partialInsertionSort` fast path: only tried when both flags are
set and the hint is increasing; its mutations persist even when it
reports unsorted. -/
def pdqPartialStage (next : List α → Nat → Nat → Nat → Bool → Bool → List α)
    (l : List α) (a b limit : Nat) (wb wp : Bool) (pivot : Nat) (hint : Hint) : List α :=
  if wb ∧ wp ∧ hint = Hint.increasing then
    if (partialInsertionSortGo less l a b).1 then (partialInsertionSortGo less l a b).2
    else pdqPartitionStage less next (partialInsertionSortGo less l a b).2 a b limit wb wp pivot
  else pdqPartitionStage less next l a b limit wb wp pivot

/-- The `hint == decreasingHint` region: reverse the range and flip the
pivot index and hint. -/
def pdqHintStage (next : List α → Nat → Nat → Nat → Bool → Bool → List α)
    (l : List α) (a b limit : Nat) (wb wp : Bool) (pivot : Nat) (hint : Hint) : List α :=
  if hint = Hint.decreasing then
    pdqPartialStage less next (reverseRangeGo l a b) a b limit wb wp
      ((b - 1) - (pivot - a)) Hint.increasing
  else pdqPartialStage less next l a b limit wb wp pivot hint

/-- Pivot selection feeding the hint stage. -/
def pdqPivotStage (next : List α → Nat → Nat → Nat → Bool → Bool → List α)
    (l : List α) (a b limit : Nat) (wb wp : Bool) : List α :=
  pdqHintStage less next l a b limit wb wp
    (choosePivotGo less l a b).1 (choosePivotGo less l a b).2

/-- The `!wasBalanced` region: shuffle to break patterns and spend one
unit of the heap-sort budget. -/
def pdqRest (next : List α → Nat → Nat → Nat → Bool → Bool → List α)
    (l : List α) (a b limit : Nat) (wb wp : Bool) : List α :=
  if !wb then
    pdqPivotStage less next (breakPatternsGo l a b) a b (limit - 1) wb wp
  else pdqPivotStage less next l a b limit wb wp

/-- `pdqsort_func(data, a, b, limit)`.  The two trailing booleans are
the loop-local `wasBalanced` and `wasPartitioned`, both `true` on entry
to a fresh invocation. -/
def pdqsortGo : Nat → List α → Nat → Nat → Nat → Bool → Bool → List α
  | 0, l, _, _, _, _, _ => l
  | fuel + 1, l, a, b, limit, wasBalanced, wasPartitioned =>
    if b - a ≤ 12 then insertionSortGo less l a b
    else if limit = 0 then heapSortGo less l a b
    else
      pdqRest less (fun l a b limit wb wp => pdqsortGo fuel l a b limit wb wp)
        l a b limit wasBalanced wasPartitioned

/-- `sort.Slice(x, less)`: `limit := bits.Len(uint(length))`, then
`pdqsort(0, length, limit)`.  The fuel bounds the number of loop
iterations plus recursion depth, which never exceeds the length. -/
def goSortSlice (l : List α) : List α :=
  pdqsortGo less (l.length + 64) l 0 l.length (goBitsLen l.length) true true

end GoSort

/-- The `.md` article-file extension. -/
def mdExt : Str := ('.') :: ('m') :: ('d') :: []

/-- The body of the `loadPosts` loop for one directory entry: `none`
means the entry contributes no post (not an article, or skipped with a
warning). -/
def processEntry (e : DirEntry) : Option Post :=
  if endsWith e.name mdExt then
    if e.name.length < 10 then none
    else
      match parseGoDate (e.name.take 10) with
      | none => none
      | some postDate =>
        some { title := (parseMarkdown e.content).2.1,
               slug := goTrimSuffix e.name mdExt,
               date := postDate,
               content := (parseMarkdown e.content).1,
               excerpt := (parseMarkdown e.content).2.2 }
  else none

/-- Number of `log.Printf` warnings the `loadPosts` loop emits for one
entry (one for a too-short name, one for an unparsable date prefix). -/
def entryWarnings (e : DirEntry) : Nat :=
  if endsWith e.name mdExt then
    if e.name.length < 10 then 1
    else
      match parseGoDate (e.name.take 10) with
      | none => 1
      | some _ => 0
  else 0

/-- The posts appended by the `loadPosts` loop, in directory-enumeration
order (Go's `os.ReadDir` returns entries sorted by filename; the model
takes that enumeration as its input list). -/
def collectPosts (es : List DirEntry) : List Post := es.filterMap processEntry

/-- Total warnings the loop logs. -/
def loadWarnings (es : List DirEntry) : Nat := (es.map entryWarnings).sum

/-- The comparator closure of `loadPosts`:
`posts[i].Date.After(posts[j].Date)`. -/
def postDateAfter (p q : Post) : Bool := dateAfter p.date q.date

/-- `loadPosts` from `main.go`: collect, then
`sort.Slice(posts, ...After...)`. -/
def loadPosts (es : List DirEntry) : List Post :=
  goSortSlice postDateAfter (collectPosts es)

/-- Why `os.ReadDir` can fail. -/
inductive ReadDirError where
  | permissionDenied : ReadDirError
  | notExist : ReadDirError
deriving DecidableEq, Repr

/-- `files, _ := os.ReadDir(dir)` (source line 125): the error is
discarded, so a failed read behaves exactly like an empty directory. -/
def readDirEntries (r : Except ReadDirError (List DirEntry)) : List DirEntry :=
  match r with
  | .error _ => []
  | .ok es => es

/-- `loadPosts` as invoked on a directory read result. -/
def loadPostsFromDir (r : Except ReadDirError (List DirEntry)) : List Post :=
  loadPosts (readDirEntries r)

/-- The build outcome of the post pipeline: `.error` would model a
`log.Fatal`-style abort (non-zero exit); the code on this path has no
such call, so the outcome is always `.ok`. -/
def buildOutcome (r : Except ReadDirError (List DirEntry)) : Except Str (List Post) :=
  Except.ok (loadPostsFromDir r)

/-- Chunk classifiers for the open/close bookkeeping of lists and code
fences. -/
def isUlOpen : Chunk → Bool
  | .ulOpen => true
  | _ => false

def isUlClose : Chunk → Bool
  | .ulClose => true
  | _ => false

def isCodeOpen : Chunk → Bool
  | .codeOpen _ => true
  | _ => false

def isCodeClose : Chunk → Bool
  | .codeClose => true
  | _ => false

/-- Whether `pat` occurs as a contiguous substring of `s`. -/
def occursIn (pat : Str) : Str → Bool
  | [] => pat.isPrefixOf []
  | c :: tl => pat.isPrefixOf (c :: tl) || occursIn pat tl

/-- Modelled from the spec's words (§4.2 / claim C5): the claimed
per-character mapping of the Anchor Sanitizer, to be compared with the
source-derived `sanitizeAnchor`. -/
def sanitizeCharSpec (c : Char) : Char :=
  goToLowerChar
    (if goIsLetter c || goIsDigit c || c = '-' || c = '_' || c = '.' || c = '~' then c
     else '-')

/-- A directory of thirteen articles: twelve sharing the date
`2025-01-01` (named `a` through `l`, which is also their `os.ReadDir`
enumeration order) followed by one dated `2025-01-02`. -/
def c1Entries : List DirEntry :=
  [⟨("2025-01-01-a.md").data, []⟩, ⟨("2025-01-01-b.md").data, []⟩,
   ⟨("2025-01-01-c.md").data, []⟩, ⟨("2025-01-01-d.md").data, []⟩,
   ⟨("2025-01-01-e.md").data, []⟩, ⟨("2025-01-01-f.md").data, []⟩,
   ⟨("2025-01-01-g.md").data, []⟩, ⟨("2025-01-01-h.md").data, []⟩,
   ⟨("2025-01-01-i.md").data, []⟩, ⟨("2025-01-01-j.md").data, []⟩,
   ⟨("2025-01-01-k.md").data, []⟩, ⟨("2025-01-01-l.md").data, []⟩,
   ⟨("2025-01-02-z.md").data, []⟩]

/-! ### The sort embedding only permutes the slice -/

theorem count_ge_getElem {α : Type} [DecidableEq α] (l : List α) (k : Nat) (h : k < l.length)
    (x : α) (hx : l[k] = x) : 1 ≤ l.count x :=
  List.count_pos_iff.mpr (hx ▸ List.getElem_mem h)

theorem count_lSwap {α : Type} [DecidableEq α] [Inhabited α] (x : α) (l : List α) (i j : Nat) :
    (lSwap l i j).count x = l.count x := by
  unfold lSwap
  split
  · rename_i hr
    have hi : i < l.length := hr.1
    have hj : j < l.length := hr.2
    have hj2 : j < (l.set i (lGet l j)).length := by simpa using hj
    have hgi : lGet l i = l[i] := by
      simp [lGet, List.getD_eq_getElem?_getD, List.getElem?_eq_getElem hi]
    have hgj : lGet l j = l[j] := by
      simp [lGet, List.getD_eq_getElem?_getD, List.getElem?_eq_getElem hj]
    have b1 : (l[i] == x) = true → 1 ≤ l.count x :=
      fun h => count_ge_getElem l i hi x (eq_of_beq h)
    have b2 : (l[j] == x) = true → 1 ≤ l.count x :=
      fun h => count_ge_getElem l j hj x (eq_of_beq h)
    rw [List.count_set _ _ _ _ hj2, List.count_set _ _ _ _ hi]
    by_cases hij : i = j
    · subst hij
      simp only [List.getElem_set_self, hgi, hgj]
      split_ifs with h1
      · have hb0 := b1 h1; omega
      · omega
    · simp only [List.getElem_set_ne hij, hgi, hgj]
      split_ifs with h1 h2 <;> first
        | (have hb1 := b1 h1; omega)
        | (have hb2 := b2 h2; omega)
        | omega
  · rfl

theorem count_foldl {α β : Type} [DecidableEq α] (x : α) (f : List α → β → List α)
    (hf : ∀ l y, (f l y).count x = l.count x) :
    ∀ (xs : List β) (l : List α), (xs.foldl f l).count x = l.count x
  | [], _ => rfl
  | y :: xs, l => by rw [List.foldl_cons, count_foldl x f hf xs (f l y), hf]

section GoSortPerm

variable {α : Type} (less : α → α → Bool) [Inhabited α] [DecidableEq α] (x : α)

theorem count_insInner (a : Nat) :
    ∀ (j : Nat) (l : List α), (insInner less l a j).count x = l.count x
  | 0, l => by simp [insInner]
  | j + 1, l => by
    unfold insInner
    split
    · rw [count_insInner a j, count_lSwap]
    · rfl

theorem count_insertionSortGo (l : List α) (a b : Nat) :
    (insertionSortGo less l a b).count x = l.count x :=
  count_foldl x _ (fun l i => count_insInner less x a i l) _ l

theorem count_siftDownGo (hi first : Nat) :
    ∀ (fuel root : Nat) (l : List α), (siftDownGo less hi first fuel root l).count x = l.count x
  | 0, _, _ => rfl
  | fuel + 1, root, l => by
    unfold siftDownGo
    simp only []
    repeat' split
    all_goals first
      | rfl
      | rw [count_siftDownGo hi first fuel, count_lSwap]

theorem count_heapSortGo (l : List α) (a b : Nat) :
    (heapSortGo less l a b).count x = l.count x := by
  have h1 : ∀ (xs : List Nat) (l0 : List α),
      (xs.foldl (fun acc i => siftDownGo less (b - a) a (b - a + 1) i acc) l0).count x
        = l0.count x :=
    count_foldl x _ (fun l0 i => count_siftDownGo less x (b - a) a (b - a + 1) i l0)
  have h2 : ∀ (xs : List Nat) (l0 : List α),
      (xs.foldl (fun acc i => siftDownGo less i a (b - a + 1) 0 (lSwap acc a (a + i))) l0).count x
        = l0.count x :=
    count_foldl x _ (fun l0 i => by rw [count_siftDownGo, count_lSwap])
  unfold heapSortGo
  simp only []
  rw [h2, h1]

theorem count_piShiftLeft :
    ∀ (j : Nat) (l : List α), (piShiftLeft less l j).count x = l.count x
  | 0, l => rfl
  | j + 1, l => by
    unfold piShiftLeft
    split
    · rfl
    · rw [count_piShiftLeft j, count_lSwap]

theorem count_piShiftRight (b : Nat) :
    ∀ (fuel j : Nat) (l : List α), (piShiftRight less l b fuel j).count x = l.count x
  | 0, _, l => rfl
  | fuel + 1, j, l => by
    unfold piShiftRight
    split
    · split
      · rfl
      · rw [count_piShiftRight b fuel _ _, count_lSwap]
    · rfl

theorem count_piLoop (a b : Nat) :
    ∀ (steps i : Nat) (l : List α), (piLoop less a b steps i l).2.count x = l.count x
  | 0, _, _ => rfl
  | steps + 1, i, l => by
    unfold piLoop
    simp only []
    split
    · rfl
    · split
      · rfl
      · rw [count_piLoop a b steps]
        split
        · rw [count_piShiftRight]
          split
          · rw [count_piShiftLeft, count_lSwap]
          · rw [count_lSwap]
        · split
          · rw [count_piShiftLeft, count_lSwap]
          · rw [count_lSwap]

theorem count_partialInsertionSortGo (l : List α) (a b : Nat) :
    (partialInsertionSortGo less l a b).2.count x = l.count x :=
  count_piLoop less x a b 5 (a + 1) l

theorem count_breakPatternsGo (l : List α) (a b : Nat) :
    (breakPatternsGo l a b).count x = l.count x := by
  unfold breakPatternsGo
  simp only []
  split
  · simp only [List.foldl_cons, List.foldl_nil]
    rw [count_lSwap, count_lSwap, count_lSwap]
  · rfl

theorem count_partLoop (a : Nat) :
    ∀ (fuel i j : Nat) (l : List α), (partLoop less a fuel i j l).2.count x = l.count x
  | 0, _, _, _ => rfl
  | fuel + 1, i, j, l => by
    unfold partLoop
    simp only []
    split
    · rfl
    · rw [count_partLoop a fuel, count_lSwap]

theorem count_partitionGo (l : List α) (a b pivot : Nat) :
    (partitionGo less l a b pivot).2.2.count x = l.count x := by
  unfold partitionGo
  simp only []
  split
  · rw [count_lSwap, count_lSwap]
  · rw [count_lSwap, count_partLoop, count_lSwap, count_lSwap]

theorem count_peLoop (a : Nat) :
    ∀ (fuel i j : Nat) (l : List α), (peLoop less a fuel i j l).2.count x = l.count x
  | 0, _, _, _ => rfl
  | fuel + 1, i, j, l => by
    unfold peLoop
    simp only []
    split
    · rfl
    · rw [count_peLoop a fuel, count_lSwap]

theorem count_partitionEqualGo (l : List α) (a b pivot : Nat) :
    (partitionEqualGo less l a b pivot).2.count x = l.count x := by
  unfold partitionEqualGo
  rw [count_peLoop, count_lSwap]

theorem count_revLoop :
    ∀ (fuel i j : Nat) (l : List α), (revLoop fuel i j l : List α).count x = l.count x
  | 0, _, _, l => rfl
  | fuel + 1, i, j, l => by
    unfold revLoop
    split
    · rw [count_revLoop fuel, count_lSwap]
    · rfl

theorem count_reverseRangeGo (l : List α) (a b : Nat) :
    (reverseRangeGo l a b).count x = l.count x :=
  count_revLoop x _ _ _ l

theorem count_pdqRecurse (next : List α → Nat → Nat → Nat → Bool → Bool → List α)
    (hnext : ∀ l a b limit wb wp, (next l a b limit wb wp).count x = l.count x)
    (l : List α) (a b limit mid : Nat) (ap : Bool) :
    (pdqRecurse next l a b limit mid ap).count x = l.count x := by
  unfold pdqRecurse
  split <;> rw [hnext, hnext]

theorem count_pdqPartitionStage (next : List α → Nat → Nat → Nat → Bool → Bool → List α)
    (hnext : ∀ l a b limit wb wp, (next l a b limit wb wp).count x = l.count x)
    (l : List α) (a b limit : Nat) (wb wp : Bool) (pivot : Nat) :
    (pdqPartitionStage less next l a b limit wb wp pivot).count x = l.count x := by
  unfold pdqPartitionStage
  split
  · rw [hnext, count_partitionEqualGo]
  · rw [count_pdqRecurse x next hnext, count_partitionGo]

theorem count_pdqPartialStage (next : List α → Nat → Nat → Nat → Bool → Bool → List α)
    (hnext : ∀ l a b limit wb wp, (next l a b limit wb wp).count x = l.count x)
    (l : List α) (a b limit : Nat) (wb wp : Bool) (pivot : Nat) (hint : Hint) :
    (pdqPartialStage less next l a b limit wb wp pivot hint).count x = l.count x := by
  unfold pdqPartialStage
  split
  · split
    · rw [count_partialInsertionSortGo]
    · rw [count_pdqPartitionStage less x next hnext, count_partialInsertionSortGo]
  · rw [count_pdqPartitionStage less x next hnext]

theorem count_pdqHintStage (next : List α → Nat → Nat → Nat → Bool → Bool → List α)
    (hnext : ∀ l a b limit wb wp, (next l a b limit wb wp).count x = l.count x)
    (l : List α) (a b limit : Nat) (wb wp : Bool) (pivot : Nat) (hint : Hint) :
    (pdqHintStage less next l a b limit wb wp pivot hint).count x = l.count x := by
  unfold pdqHintStage
  split
  · rw [count_pdqPartialStage less x next hnext, count_reverseRangeGo]
  · rw [count_pdqPartialStage less x next hnext]

theorem count_pdqRest (next : List α → Nat → Nat → Nat → Bool → Bool → List α)
    (hnext : ∀ l a b limit wb wp, (next l a b limit wb wp).count x = l.count x)
    (l : List α) (a b limit : Nat) (wb wp : Bool) :
    (pdqRest less next l a b limit wb wp).count x = l.count x := by
  unfold pdqRest pdqPivotStage
  split
  · rw [count_pdqHintStage less x next hnext, count_breakPatternsGo]
  · rw [count_pdqHintStage less x next hnext]

theorem count_pdqsortGo :
    ∀ (fuel : Nat) (l : List α) (a b limit : Nat) (wb wp : Bool),
      (pdqsortGo less fuel l a b limit wb wp).count x = l.count x
  | 0, _, _, _, _, _, _ => rfl
  | fuel + 1, l, a, b, limit, wb, wp => by
    unfold pdqsortGo
    split
    · exact count_insertionSortGo less x l a b
    split
    · exact count_heapSortGo less x l a b
    exact count_pdqRest less x _
      (fun l a b limit wb wp => count_pdqsortGo fuel l a b limit wb wp) l a b limit wb wp

theorem count_goSortSlice (l : List α) : (goSortSlice less l).count x = l.count x :=
  count_pdqsortGo less x _ l 0 l.length (goBitsLen l.length) true true

end GoSortPerm

/-- `sort.Slice` only permutes the slice. -/
theorem goSortSlice_perm {α : Type} (less : α → α → Bool) [Inhabited α] [DecidableEq α]
    (l : List α) : (goSortSlice less l).Perm l :=
  List.perm_iff_count.mpr fun x => count_goSortSlice less x l

/-! ### Line splitting and trimming -/

theorem splitNl_cons_of_noNl (a b : Str) (h : ('\n') ∉ a) :
    splitNl (a ++ ('\n') :: b) = a :: splitNl b := by
  induction a with
  | nil => simp [splitNl]
  | cons c cs ih =>
    have hc : ¬ c = '\n' := fun e => h (by simp [e])
    have h' : ('\n') ∉ cs := fun m => h (List.mem_cons_of_mem _ m)
    simp [splitNl, hc, ih h']

theorem splitNl_of_noNl (a : Str) (h : ('\n') ∉ a) : splitNl a = [a] := by
  induction a with
  | nil => rfl
  | cons c cs ih =>
    have hc : ¬ c = '\n' := fun e => h (by simp [e])
    have h' : ('\n') ∉ cs := fun m => h (List.mem_cons_of_mem _ m)
    simp [splitNl, hc, ih h']

theorem trimLeft_append_spaces (ws l : Str) (h : ∀ c ∈ ws, goIsSpace c = true) :
    trimLeft (ws ++ l) = trimLeft l := by
  unfold trimLeft
  rw [List.dropWhile_append_of_pos h]

theorem trimSpace_append_spaces (ws l : Str) (h : ∀ c ∈ ws, goIsSpace c = true) :
    trimSpace (ws ++ l) = trimSpace l := by
  unfold trimSpace
  rw [trimLeft_append_spaces ws l h]

theorem dropWhile_fix_head {p : Char → Bool} {c : Char} {cs : Str}
    (h : List.dropWhile p (c :: cs) = c :: cs) : p c = false := by
  by_contra hc
  have hp : p c = true := by simpa using hc
  have hle := (List.dropWhile_sublist (l := cs) p).length_le
  rw [List.dropWhile_cons, hp] at h
  simp only [if_true] at h
  have hlen := congrArg List.length h
  simp at hlen
  omega

theorem trimRight_three_ticks (lang : Str) (hne : lang ≠ [])
    (ht : trimRight lang = lang) :
    trimRight (('`') :: ('`') :: ('`') :: lang) = ('`') :: ('`') :: ('`') :: lang := by
  unfold trimRight at ht ⊢
  rcases hr : lang.reverse with _ | ⟨c, cs⟩
  · exact absurd (by simpa using congrArg List.reverse hr) hne
  · have hfix : List.dropWhile goIsSpace (c :: cs) = c :: cs := by
      have h2 := congrArg List.reverse ht
      rw [List.reverse_reverse] at h2
      rw [hr] at h2
      exact h2
    have hc : goIsSpace c = false := dropWhile_fix_head hfix
    have hlang : lang = cs.reverse ++ [c] := by
      have h3 := congrArg List.reverse hr
      simpa using h3
    have hrev : (('`') :: ('`') :: ('`') :: lang).reverse
        = (c :: cs) ++ [('`'), ('`'), ('`')] := by
      simp [hlang]
    rw [hrev, List.dropWhile_append]
    simp [hfix, hc, hlang]

theorem trimSpace_fence (lang : Str) (hne : lang ≠ []) (ht : trimSpace lang = lang) :
    trimSpace (('`') :: ('`') :: ('`') :: lang) = ('`') :: ('`') :: ('`') :: lang := by
  have hl : trimLeft lang = lang := by
    have h1 := congrArg List.length ht
    have h2 := (List.dropWhile_sublist (l := lang) goIsSpace).length_le
    have h3 := (List.dropWhile_sublist (l := (trimLeft lang).reverse) goIsSpace).length_le
    unfold trimSpace trimRight at h1
    simp only [List.length_reverse] at h1 h3
    unfold trimLeft at h2 ⊢
    have h4 : (List.dropWhile goIsSpace lang).length = lang.length := by
      unfold trimLeft at h1 h3
      omega
    exact (List.dropWhile_sublist (l := lang) goIsSpace).eq_of_length h4
  have hr : trimRight lang = lang := by
    unfold trimSpace at ht
    rwa [hl] at ht
  have htick : goIsSpace ('`') = false := by decide
  unfold trimSpace
  rw [show trimLeft (('`') :: ('`') :: ('`') :: lang) = ('`') :: ('`') :: ('`') :: lang by
        simp [trimLeft, List.dropWhile_cons, htick]]
  exact trimRight_three_ticks lang hne hr

/-! ### The chunk stream -/

theorem chunksText_append (a b : List Chunk) :
    chunksText (a ++ b) = chunksText a ++ chunksText b := by
  simp [chunksText]

theorem chunksText_text (s : Str) : chunksText [Chunk.text s] = s := by
  simp [chunksText, chunkHtml]

theorem chunksText_cons (c : Chunk) (cs : List Chunk) :
    chunksText (c :: cs) = chunkHtml c ++ chunksText cs := by
  simp [chunksText]

theorem startsWith_cons_ne (c d : Char) (s p : Str) (h : (d == c) = false) :
    startsWith (c :: s) (d :: p) = false := by
  simp only [startsWith, List.isPrefixOf, h, Bool.false_and]

theorem startsWith_hash_space (t : Str) :
    startsWith (('#') :: (' ') :: t) (('#') :: (' ') :: []) = true := by
  simp [startsWith, List.isPrefixOf]

/-- A first line that trims to `"# " ++ t` is handled by the `# `
heading rule alone: one `<h1>` chunk, no excerpt, state unchanged. -/
theorem lineStep_h1 (raw t : Str) (fp : Bool)
    (htrim : trimSpace raw = ('#') :: (' ') :: t) :
    lineStep raw ⟨false, false, fp⟩ = ([Chunk.text (h1Html t)], [], ⟨false, false, fp⟩) := by
  have c1 : startsWith (('#') :: (' ') :: t) (('`') :: ('`') :: ('`') :: []) = false :=
    startsWith_cons_ne _ _ _ _ (by decide)
  have c2 : startsWith (('#') :: (' ') :: t) (('>') :: (' ') :: []) = false :=
    startsWith_cons_ne _ _ _ _ (by decide)
  have c3 : startsWith (('#') :: (' ') :: t) (('#') :: (' ') :: []) = true :=
    startsWith_hash_space t
  unfold lineStep
  rw [htrim]
  simp [c1, c2, c3, closeUl]

/-! ### Balanced block tags (claim C7 machinery) -/

set_option maxHeartbeats 1000000 in
theorem lineStep_ul_balance (raw : Str) (st : PState) :
    (lineStep raw st).1.countP isUlClose + ((lineStep raw st).2.2.inList).toNat
      = (lineStep raw st).1.countP isUlOpen + (st.inList).toNat := by
  rcases st with ⟨il, ic, fp⟩
  unfold lineStep
  cases il <;> cases ic <;>
    (simp only []; repeat' split) <;>
    (try simp_all [closeUl, isUlOpen, isUlClose, List.countP_cons, List.countP_nil]) <;>
    (try omega)

set_option maxHeartbeats 1000000 in
theorem lineStep_code_balance (raw : Str) (st : PState) :
    (lineStep raw st).1.countP isCodeClose + ((lineStep raw st).2.2.inCode).toNat
      = (lineStep raw st).1.countP isCodeOpen + (st.inCode).toNat := by
  rcases st with ⟨il, ic, fp⟩
  unfold lineStep
  cases il <;> cases ic <;>
    (simp only []; repeat' split) <;>
    (try simp_all [closeUl, isCodeOpen, isCodeClose, List.countP_cons, List.countP_nil]) <;>
    (try omega)

theorem processLines_ul_balance :
    ∀ (ls : List Str) (st : PState),
      (processLines ls st).1.countP isUlClose
        = (processLines ls st).1.countP isUlOpen + (st.inList).toNat
  | [], st => by
    rcases st with ⟨il, ic, fp⟩
    cases il <;> cases ic <;>
      simp [processLines, eofChunks, isUlOpen, isUlClose, List.countP_cons, List.countP_nil]
  | raw :: ls, st => by
    have h1 := lineStep_ul_balance raw st
    have h2 := processLines_ul_balance ls (lineStep raw st).2.2
    simp only [processLines, List.countP_append]
    omega

theorem processLines_code_balance :
    ∀ (ls : List Str) (st : PState),
      (processLines ls st).1.countP isCodeClose
        = (processLines ls st).1.countP isCodeOpen + (st.inCode).toNat
  | [], st => by
    rcases st with ⟨il, ic, fp⟩
    cases il <;> cases ic <;>
      simp [processLines, eofChunks, isCodeOpen, isCodeClose, List.countP_cons, List.countP_nil]
  | raw :: ls, st => by
    have h1 := lineStep_code_balance raw st
    have h2 := processLines_code_balance ls (lineStep raw st).2.2
    simp only [processLines, List.countP_append]
    omega

/-! ### Date-parse length -/

theorem parseGoDate_length (s : Str) (d : Date) (h : parseGoDate s = some d) :
    s.length = 10 := by
  unfold parseGoDate at h
  split at h
  · rfl
  · exact absurd h (by simp)

/-! ### The claims -/

/-- C1: the claim says `loadPosts` sorts strictly descending by
`publishDate` with ties kept in discovery order (a stable sort).  The
code calls `sort.Slice`, which Go documents as not stable; on the
thirteen-entry directory `c1Entries` (twelve posts dated 2025-01-01
discovered in order a…l, one dated 2025-01-02), the embedded
`sort.Slice` returns the equal-date posts in the order
g,c,d,e,f,a,h,i,j,k,l,b — not their discovery order — while every
equal-date post indeed carries the same `publishDate`. -/
theorem loadPosts_sortSlice_unstable :
    (collectPosts c1Entries).map Post.slug =
      [("2025-01-01-a").data, ("2025-01-01-b").data, ("2025-01-01-c").data,
       ("2025-01-01-d").data, ("2025-01-01-e").data, ("2025-01-01-f").data,
       ("2025-01-01-g").data, ("2025-01-01-h").data, ("2025-01-01-i").data,
       ("2025-01-01-j").data, ("2025-01-01-k").data, ("2025-01-01-l").data,
       ("2025-01-02-z").data]
    ∧ (loadPosts c1Entries).map Post.slug =
      [("2025-01-02-z").data, ("2025-01-01-g").data, ("2025-01-01-c").data,
       ("2025-01-01-d").data, ("2025-01-01-e").data, ("2025-01-01-f").data,
       ("2025-01-01-a").data, ("2025-01-01-h").data, ("2025-01-01-i").data,
       ("2025-01-01-j").data, ("2025-01-01-k").data, ("2025-01-01-l").data,
       ("2025-01-01-b").data]
    ∧ (∀ p ∈ loadPosts c1Entries,
        p.slug = ("2025-01-02-z").data ∨ p.date = ⟨2025, 1, 1⟩) := by
  refine ⟨by decide, by decide, by decide⟩

/-- C2: for every `.md` directory entry whose first ten characters parse
as a `YYYY-MM-DD` date, the loop yields exactly one `Post` with that
`publishDate` and with `slug` the filename minus `.md`, and logs no
warning; for every `.md` entry whose prefix does not parse (including
names shorter than ten characters), it yields no post and logs exactly
one warning; the sorted result of `loadPosts` is a permutation of the
per-entry yields, so skipping one entry never drops another. -/
theorem loadPosts_entry_validation (es : List DirEntry) :
    (loadPosts es).Perm (es.filterMap processEntry)
    ∧ (∀ name content d, endsWith name mdExt = true →
        parseGoDate (name.take 10) = some d →
        processEntry ⟨name, content⟩ = some
          { title := (parseMarkdown content).2.1,
            slug := goTrimSuffix name mdExt,
            date := d,
            content := (parseMarkdown content).1,
            excerpt := (parseMarkdown content).2.2 }
        ∧ entryWarnings ⟨name, content⟩ = 0)
    ∧ (∀ name content, endsWith name mdExt = true →
        parseGoDate (name.take 10) = none →
        processEntry ⟨name, content⟩ = none ∧ entryWarnings ⟨name, content⟩ = 1) := by
  refine ⟨goSortSlice_perm postDateAfter (collectPosts es), ?_, ?_⟩
  · intro name content d hmd hdate
    have hlen10 : (name.take 10).length = 10 := parseGoDate_length _ _ hdate
    have hge : ¬ name.length < 10 := by
      simp only [List.length_take] at hlen10
      omega
    constructor
    · simp [processEntry, hmd, hge, hdate]
    · simp [entryWarnings, hmd, hge, hdate]
  · intro name content hmd hdate
    by_cases hl : name.length < 10 <;>
      simp [processEntry, entryWarnings, hmd, hl, hdate]

/-- C2 witness: a valid entry `2025-07-01-hello.md` yields exactly the
expected post and no warning; `a.md` (too short) and `2025-13-01-bad.md`
(unparsable month) yield nothing and one warning each, and `loadPosts`
still returns a permutation of the surviving posts. -/
theorem loadPosts_entry_validation_witness :
    processEntry ⟨("2025-07-01-hello.md").data, ("# Hi").data⟩ =
      some { title := ("Hi").data, slug := ("2025-07-01-hello").data,
             date := ⟨2025, 7, 1⟩, content := ("<h1>Hi</h1>\n").data, excerpt := [] }
    ∧ entryWarnings ⟨("2025-07-01-hello.md").data, ("# Hi").data⟩ = 0
    ∧ processEntry ⟨("a.md").data, []⟩ = none
    ∧ entryWarnings ⟨("a.md").data, []⟩ = 1
    ∧ processEntry ⟨("2025-13-01-bad.md").data, []⟩ = none
    ∧ entryWarnings ⟨("2025-13-01-bad.md").data, []⟩ = 1
    ∧ (loadPosts [⟨("2025-07-01-hello.md").data, ("# Hi").data⟩, ⟨("a.md").data, []⟩]).Perm
        (([⟨("2025-07-01-hello.md").data, ("# Hi").data⟩,
           (⟨("a.md").data, []⟩ : DirEntry)]).filterMap processEntry) := by
  have h := loadPosts_entry_validation
    [⟨("2025-07-01-hello.md").data, ("# Hi").data⟩, ⟨("a.md").data, []⟩]
  have h1 := (h.2.1 (("2025-07-01-hello.md").data) (("# Hi").data) ⟨2025, 7, 1⟩
    (by decide) (by decide))
  have h2 := (h.2.2 (("a.md").data) [] (by decide) (by decide))
  have h3 := (h.2.2 (("2025-13-01-bad.md").data) [] (by decide) (by decide))
  exact ⟨h1.1.trans (congrArg some (by decide)), h1.2, h2.1, h2.2, h3.1, h3.2, h.1⟩

/-- C3: `formatInline` escapes first and then substitutes in the fixed
order image, link, code, bold, strikethrough, italic, each pass reading
the previous pass's output; on `"**bold** and *italic* and `code`"` it
produces `<strong>bold</strong> and <em>italic</em> and
<code>code</code>` (the surrounding text has nothing to escape). -/
theorem formatInline_order_and_example :
    (∀ s : Str, formatInline s =
      replaceAllWith tryItalic (replaceAllWith tryStrike (replaceAllWith tryBold
        (replaceAllWith tryCode (replaceAllWith tryLink (replaceAllWith tryImage
          (escapeString s)))))))
    ∧ formatInline (("**bold** and *italic* and `code`").data) =
        ("<strong>bold</strong> and <em>italic</em> and <code>code</code>").data :=
  ⟨fun _ => rfl, by decide⟩

/-- C4: `formatInline` escapes HTML-significant characters before any
substitution, so `"<script>"` comes out as the entities
`&lt;script&gt;` and the output never contains a literal `<script>`. -/
theorem formatInline_escapes_script :
    formatInline (("<script>").data) = ("&lt;script&gt;").data
    ∧ occursIn (("<script>").data) (formatInline (("<script>").data)) = false := by
  refine ⟨by decide, by decide⟩

/-- C5: `sanitizeAnchor` is exactly the claimed character-for-character
map — letters and digits kept, `-`, `_`, `.`, `~` kept, every other
character replaced by one `-`, the whole result lower-cased — with no
collapsing or trimming; in particular `"Hello, World!"` maps to
`"hello--world-"`. -/
theorem sanitizeAnchor_charwise :
    (∀ s : Str, sanitizeAnchor s = s.map sanitizeCharSpec)
    ∧ sanitizeAnchor (("Hello, World!").data) = ("hello--world-").data := by
  constructor
  · intro s
    unfold sanitizeAnchor
    rw [List.map_map]
    refine List.map_congr_left fun c _ => ?_
    simp only [Function.comp]
    unfold keepRune sanitizeCharSpec
    split_ifs <;> first
      | rfl
      | (exfalso; simp_all)
  · decide

/-- C6: when the first line is `"# " ++ t` (already trimmed,
newline-free), `parseMarkdown` both returns `t` as the title and
re-renders the same line as an `<h1>` block, with the rest of the input
processed exactly as if it stood alone; instantiated at
`"# Title\n\nHello world."` this gives title `Title`, one `<h1>` and one
`<p>Hello world.</p>`, and excerpt `Hello world.`. -/
theorem parseMarkdown_title_and_h1 (t rest : Str)
    (htrim : trimSpace (('#') :: (' ') :: t) = ('#') :: (' ') :: t)
    (hnl : ('\n') ∉ t) :
    parseMarkdown (('#') :: (' ') :: (t ++ ('\n') :: rest)) =
      (h1Html t ++ (parseMarkdown rest).1, t, (parseMarkdown rest).2.2) := by
  have hnl2 : ('\n') ∉ ('#') :: (' ') :: t := by
    intro hm
    rcases List.mem_cons.mp hm with h | hm2
    · exact absurd h (by decide)
    rcases List.mem_cons.mp hm2 with h | hm3
    · exact absurd h (by decide)
    · exact hnl hm3
  have hsplit : splitNl (('#') :: (' ') :: (t ++ ('\n') :: rest))
      = (('#') :: (' ') :: t) :: splitNl rest := by
    simpa using splitNl_cons_of_noNl (('#') :: (' ') :: t) rest hnl2
  unfold parseMarkdown
  rw [hsplit]
  simp only [processLines, lineStep_h1 _ t false htrim, mdTitle]
  simp [chunksText_cons, chunkHtml, startsWith_hash_space]

/-- C6 witness: the block-parser round trip of the claim. -/
theorem parseMarkdown_title_and_h1_witness :
    parseMarkdown (("# Title\n\nHello world.").data) =
      (("<h1>Title</h1>\n<p>Hello world.</p>\n").data,
       ("Title").data, ("Hello world.").data) := by
  have h := parseMarkdown_title_and_h1 (("Title").data) (("\nHello world.").data)
    (by decide) (by decide)
  have e : ("# Title\n\nHello world.").data
      = ('#') :: (' ') :: ((("Title").data) ++ ('\n') :: (("\nHello world.").data)) := by decide
  rw [e, h]
  decide

/-- C7: `parseMarkdown` is a total function, and on every input the
chunk stream it emits carries as many `</ul>` closers as `<ul>` openers
and as many code-block closers as openers — dangling lists and dangling
code fences are closed at end of input; the returned `contentHTML` is
the rendering of exactly that chunk stream. -/
theorem parseMarkdown_blocks_balanced (input : Str) :
    (markdownChunks input).countP isUlClose = (markdownChunks input).countP isUlOpen
    ∧ (markdownChunks input).countP isCodeClose = (markdownChunks input).countP isCodeOpen
    ∧ (parseMarkdown input).1 = chunksText (markdownChunks input) := by
  refine ⟨?_, ?_, rfl⟩
  · simpa [markdownChunks] using processLines_ul_balance (splitNl input) ⟨false, false, false⟩
  · simpa [markdownChunks] using processLines_code_balance (splitNl input) ⟨false, false, false⟩

/-- C8 counterexample: the claim says an unreadable article directory
aborts the build with a non-zero exit; in the code the `os.ReadDir`
error is discarded (`files, _ := os.ReadDir(dir)`), so on a
permission-denied read the pipeline returns successfully with an empty
post collection instead of aborting. -/
theorem loadPosts_unreadable_dir_continues :
    buildOutcome (Except.error ReadDirError.permissionDenied) = Except.ok []
    ∧ loadPostsFromDir (Except.error ReadDirError.permissionDenied) = [] :=
  ⟨rfl, rfl⟩

/-- C8 amended: whatever the reason the source directory cannot be
read, the error is ignored: `loadPosts` returns an empty collection and
the build completes normally. -/
theorem loadPosts_unreadable_dir_empty :
    ∀ e : ReadDirError, buildOutcome (Except.error e) = Except.ok []
      ∧ loadPostsFromDir (Except.error e) = [] :=
  fun _ => ⟨rfl, rfl⟩

/-- C9: title extraction inspects the raw, untrimmed first line, while
line classification trims it: an input whose first line is whitespace
followed by `"# " ++ t` yields an empty title yet still renders the
`<h1>` block, so the two can disagree. -/
theorem parseMarkdown_indented_title_skipped (ws t rest : Str)
    (hws : ws ≠ []) (hall : ∀ c ∈ ws, goIsSpace c = true) (hwnl : ('\n') ∉ ws)
    (htrim : trimSpace (('#') :: (' ') :: t) = ('#') :: (' ') :: t)
    (hnl : ('\n') ∉ t) :
    parseMarkdown (ws ++ ('#') :: (' ') :: (t ++ ('\n') :: rest)) =
      (h1Html t ++ (parseMarkdown rest).1, [], (parseMarkdown rest).2.2) := by
  have hnl2 : ('\n') ∉ ws ++ ('#') :: (' ') :: t := by
    intro hm
    rcases List.mem_append.mp hm with h | hm2
    · exact hwnl h
    rcases List.mem_cons.mp hm2 with h | hm3
    · exact absurd h (by decide)
    rcases List.mem_cons.mp hm3 with h | hm4
    · exact absurd h (by decide)
    · exact hnl hm4
  have hsplit : splitNl (ws ++ ('#') :: (' ') :: (t ++ ('\n') :: rest))
      = (ws ++ ('#') :: (' ') :: t) :: splitNl rest := by
    have hsp := splitNl_cons_of_noNl (ws ++ ('#') :: (' ') :: t) rest hnl2
    simpa [List.append_assoc] using hsp
  have htrim2 : trimSpace (ws ++ ('#') :: (' ') :: t) = ('#') :: (' ') :: t := by
    rw [trimSpace_append_spaces ws _ hall, htrim]
  have hstep := lineStep_h1 (ws ++ ('#') :: (' ') :: t) t false htrim2
  rcases ws with _ | ⟨c, ws'⟩
  · exact absurd rfl hws
  have hc : (('#') == c) = false := by
    have hcs : goIsSpace c = true := hall c (List.mem_cons_self c ws')
    refine beq_eq_false_iff_ne.mpr fun he => ?_
    rw [← he] at hcs
    exact absurd hcs (by decide)
  have hsw : startsWith ((c :: ws') ++ ('#') :: (' ') :: t) (('#') :: (' ') :: []) = false := by
    simpa using startsWith_cons_ne c ('#') _ _ hc
  unfold parseMarkdown
  rw [hsplit]
  simp only [List.cons_append] at hstep hsw ⊢
  simp only [processLines, hstep, mdTitle]
  simp [hsw, chunksText_cons, chunkHtml]

/-- C9 witness: `"  # Title\n"` yields an empty title but still renders
the `<h1>` block. -/
theorem parseMarkdown_indented_title_skipped_witness :
    parseMarkdown (("  # Title\n").data) = (("<h1>Title</h1>\n").data, [], []) := by
  have h := parseMarkdown_indented_title_skipped ((' ') :: (' ') :: []) (("Title").data) []
    (by decide) (by decide) (by decide) (by decide) (by decide)
  have e : ("  # Title\n").data
      = ((' ') :: (' ') :: []) ++ ('#') :: (' ') :: ((("Title").data) ++ ('\n') :: []) := by decide
  rw [e, h]
  decide

set_option maxRecDepth 10000 in
/-- C10: a non-empty fence info string (already trimmed, newline-free)
is emitted verbatim — without HTML escaping — inside the `class`
attribute of the emitted code element, so any HTML-significant
characters in it reach `contentHTML` unescaped. -/
theorem parseMarkdown_codeLang_verbatim (lang : Str) (hne : lang ≠ [])
    (htrim : trimSpace lang = lang) (hnl : ('\n') ∉ lang) :
    parseMarkdown (('`') :: ('`') :: ('`') :: lang) =
      (chunkHtml (Chunk.codeOpen lang) ++ chunkHtml Chunk.codeClose, [], [])
    ∧ ∃ u v, (parseMarkdown (('`') :: ('`') :: ('`') :: lang)).1 =
        u ++ (("class=\"language-").data ++ lang ++ ('"') :: []) ++ v := by
  have hnl2 : ('\n') ∉ ('`') :: ('`') :: ('`') :: lang := by
    intro hm
    rcases List.mem_cons.mp hm with h | hm2
    · exact absurd h (by decide)
    rcases List.mem_cons.mp hm2 with h | hm3
    · exact absurd h (by decide)
    rcases List.mem_cons.mp hm3 with h | hm4
    · exact absurd h (by decide)
    · exact hnl hm4
  have hsplit : splitNl (('`') :: ('`') :: ('`') :: lang) = [('`') :: ('`') :: ('`') :: lang] :=
    splitNl_of_noNl _ hnl2
  have htr : trimSpace (('`') :: ('`') :: ('`') :: lang) = ('`') :: ('`') :: ('`') :: lang :=
    trimSpace_fence lang hne htrim
  have hfence : startsWith (('`') :: ('`') :: ('`') :: lang)
      (('`') :: ('`') :: ('`') :: []) = true := by
    simp [startsWith, List.isPrefixOf]
  have hhash : startsWith (('`') :: ('`') :: ('`') :: lang) (('#') :: (' ') :: []) = false :=
    startsWith_cons_ne _ _ _ _ (by decide)
  have hmain : parseMarkdown (('`') :: ('`') :: ('`') :: lang) =
      (chunkHtml (Chunk.codeOpen lang) ++ chunkHtml Chunk.codeClose, [], []) := by
    unfold parseMarkdown
    rw [hsplit]
    simp only [processLines, mdTitle, hhash]
    unfold lineStep
    simp only []
    rw [htr]
    simp [hfence, htrim, eofChunks, processLines, chunksText]
  have h1 : (parseMarkdown (('`') :: ('`') :: ('`') :: lang)).1
      = chunkHtml (Chunk.codeOpen lang) ++ chunkHtml Chunk.codeClose := by rw [hmain]
  refine ⟨hmain,
    ("<div class=\"code-block-wrapper\">\n<button class=\"copy-button\" onclick=\"copyCode(this)\" aria-label=\"Copy code\">Copy</button>\n<pre><code ").data,
    ('>') :: chunkHtml Chunk.codeClose, ?_⟩
  rw [h1]
  have hco : chunkHtml (Chunk.codeOpen lang)
      = ("<div class=\"code-block-wrapper\">\n<button class=\"copy-button\" onclick=\"copyCode(this)\" aria-label=\"Copy code\">Copy</button>\n").data
        ++ (if lang = [] then ("<pre><code>").data
            else ("<pre><code class=\"language-").data ++ lang ++ ("\">").data) := rfl
  have hcc : chunkHtml Chunk.codeClose = ("</code></pre>\n</div>\n").data := rfl
  rw [hco, hcc]
  have hsplitP : ("<pre><code class=\"language-").data
      = ("<pre><code ").data ++ ("class=\"language-").data := by decide
  have hq : ("\">").data = ('"') :: ('>') :: [] := rfl
  have hU : ("<div class=\"code-block-wrapper\">\n<button class=\"copy-button\" onclick=\"copyCode(this)\" aria-label=\"Copy code\">Copy</button>\n<pre><code ").data
      = ("<div class=\"code-block-wrapper\">\n<button class=\"copy-button\" onclick=\"copyCode(this)\" aria-label=\"Copy code\">Copy</button>\n").data
        ++ ("<pre><code ").data := by decide
  rw [if_neg hne, hsplitP, hq, hU]
  simp [List.append_assoc]

set_option maxRecDepth 100000 in
/-- C10 witness: the fence info `a"<b>` reaches the class attribute with
its quote and angle brackets unescaped. -/
theorem parseMarkdown_codeLang_verbatim_witness :
    parseMarkdown (("```a\"<b>").data) =
      (("<div class=\"code-block-wrapper\">\n<button class=\"copy-button\" onclick=\"copyCode(this)\" aria-label=\"Copy code\">Copy</button>\n<pre><code class=\"language-a\"<b>\"></code></pre>\n</div>\n").data,
       [], []) := by
  have h := parseMarkdown_codeLang_verbatim (("a\"<b>").data) (by decide) (by decide) (by decide)
  have e : ("```a\"<b>").data = ('`') :: ('`') :: ('`') :: (("a\"<b>").data) := by decide
  rw [e, h.1]
  decide

end Blog
